import Mathlib

/-!
Verification of the MaxScale routing-worker runtime (`server/core/routingworker.cc`).

A shallow embedding of the routing-worker runtime: the per-worker persistent
connection pool (`evict_dcbs`, `can_be_destroyed`, `get_backend_dcb_from_pool`,
`evict_dcb`), the per-thread module initialization (`modules_thread_init`,
`pre_run`), the timeout scanner (`process_timeouts`), the zombie-queue drain
(`delete_zombies`), the pool-wide dispatch primitives (`broadcast`,
`execute_serially`, `broadcast_message`, `shutdown_all`), the shared listener
registration (`add_shared_fd`) and the thread-local current-worker accessors
(`get_current`, `get_current_id`).

The model is per-server: pools are keyed by backend server in the source
(`m_persistent_entries_by_server`); all claims are claims about one server's
pool and counters, so the embedding projects the state onto a single server.
Machine integers (`time_t`, the atomic counters) are modelled as `Int`.
-/

namespace MaxScale

/-- DCB protocol handler: either the original protocol handler or the
worker's pool handler (`m_pool_handler`, which evicts on any activity). -/
inductive Handler
  | protocol
  | pool
deriving DecidableEq, Repr

/-- The state of one backend DCB, restricted to the attributes that
`routingworker.cc` reads: `state() == POLLING`, `protocol()->established()`,
`hanged_up()`, validity of the session for pooling, the installed handler
and whether `clear()` has been called. -/
structure BDcb where
  id : Nat
  polling : Bool
  established : Bool
  hanged_up : Bool
  sessionOk : Bool
  handler : Handler
  cleared : Bool
deriving DecidableEq, Repr

/-- Embeds `RoutingWorker::PersistentEntry`: creation timestamp plus the pooled DCB. -/
structure PersistentEntry where
  created : Int
  dcb : BDcb
deriving DecidableEq, Repr

/-- The per-server data read and written by the pool code: `is_running()`
(`status() & SERVER_RUNNING`), `persistpoolmax()`, `persistmaxtime()`,
the atomic counters `pool_stats.n_persistent`, `pool_stats.n_from_pool`,
`stats().n_current` and the high-water mark `persistmax`. -/
structure ServerState where
  running : Bool
  persistpoolmax : Int
  persistmaxtime : Int
  n_persistent : Int
  n_current : Int
  n_from_pool : Int
  persistmax : Int
deriving DecidableEq, Repr

/-- The per-worker state touched by the pool code: the persistent entries for
the (single, projected) server, the live DCB set `m_dcbs`, the recursion
guard `m_evicting`, and a ghost trace of DCBs that have been fully
destroyed (the model's record of `DCB::close` on a non-poolable DCB). -/
structure WorkerPoolState where
  pool : List PersistentEntry
  dcbs : List BDcb
  evicting : Bool
  destroyed : List BDcb
deriving DecidableEq, Repr

/-- Embeds `RoutingWorker::Evict`. -/
inductive Evict
  | expired
  | all
deriving DecidableEq, Repr

/-- The scan loop of `RoutingWorker::evict_dcbs(SERVER*, Evict)`
(routingworker.cc:709-730): walk the entries front to back; an entry is
evicted when it reports a hangup, is expired (always, under `Evict::ALL`),
or the running keep-count exceeds `persistpoolmax`; otherwise the
keep-count is incremented.  Returns the kept entries, the final count and
the evicted DCBs in scan order. -/
def evictLoop (now : Int) (evict : Evict) (maxtime maxcount : Int) :
    List PersistentEntry → Int → List PersistentEntry × Int × List BDcb
  | [], count => ([], count, [])
  | e :: rest, count =>
    let hanged := e.dcb.hanged_up
    let expired := (evict == Evict.all) || decide (now - e.created > maxtime)
    let too_many := decide (count > maxcount)
    if hanged || expired || too_many then
      let r := evictLoop now evict maxtime maxcount rest count
      (r.1, r.2.1, e.dcb :: r.2.2)
    else
      let r := evictLoop now evict maxtime maxcount rest (count + 1)
      (e :: r.1, r.2.1, r.2.2)

/-- Embeds `RoutingWorker::close_pooled_dcb` (routingworker.cc:769-786): the DCB is
put back into `m_dcbs` for the duration of the close so the bookkeeping
stays symmetric, then closed; since `m_evicting` is set, `can_be_destroyed`
returns true and the DCB is destroyed and leaves `m_dcbs` again. -/
def close_pooled_dcb (w : WorkerPoolState) (d : BDcb) : WorkerPoolState :=
  let w1 := { w with dcbs := if d ∈ w.dcbs then w.dcbs else d :: w.dcbs }
  { w1 with dcbs := w1.dcbs.erase d, destroyed := w1.destroyed ++ [d] }

/-- Embeds `RoutingWorker::evict_dcbs(SERVER*, Evict)` (routingworker.cc:685-742):
sets `m_evicting`, upgrades the mode to `Evict::ALL` when the server is not
running, runs the scan, decrements `pool_stats.n_persistent` once per
evicted entry, raises `persistmax` to the keep-count, closes the evicted
DCBs and clears `m_evicting`.  Returns the keep-count. -/
def evict_dcbs (now : Int) (evict : Evict) (w : WorkerPoolState) (srv : ServerState) :
    Int × WorkerPoolState × ServerState :=
  let ev := if srv.running then evict else Evict.all
  let r := evictLoop now ev srv.persistmaxtime srv.persistpoolmax w.pool 0
  let srv1 := { srv with
    n_persistent := srv.n_persistent - r.2.2.length,
    persistmax := max srv.persistmax r.2.1 }
  let w1 := { w with pool := r.1, evicting := true }
  let w2 := r.2.2.foldl close_pooled_dcb w1
  (r.2.1, { w2 with evicting := false }, srv1)

/-- Embeds `mxb::atomic::add_limited`: increment only if the result stays at or
below the bound; reports whether the increment happened. -/
def add_limited (n delta bound : Int) : Bool × Int :=
  if n + delta ≤ bound then (true, n + delta) else (false, n)

/-- Embeds `RoutingWorker::can_be_destroyed(BackendDCB*)` (routingworker.cc:630-675):
under the `m_evicting` guard the DCB is never pooled; otherwise, when every
pooling condition holds and the keep-count left by the expiry scan is below
`persistpoolmax` and the bounded increment of `n_persistent` succeeds, the
DCB is cleared, given the pool handler, appended at the back of the pool,
removed from `m_dcbs`, `n_current` is decremented and `false` is returned. -/
def can_be_destroyed (now : Int) (d : BDcb) (w : WorkerPoolState) (srv : ServerState) :
    Bool × WorkerPoolState × ServerState :=
  if w.evicting then (true, w, srv)
  else
    if d.polling && d.established && d.sessionOk
        && decide (srv.persistpoolmax > 0) && srv.running && !d.hanged_up then
      let r := evict_dcbs now Evict.expired w srv
      if r.1 < srv.persistpoolmax then
        let a := add_limited r.2.2.n_persistent 1 srv.persistpoolmax
        if a.1 then
          let pooled : BDcb := { d with cleared := true, handler := Handler.pool }
          (false,
           { r.2.1 with
             pool := r.2.1.pool ++ [⟨now, pooled⟩],
             dcbs := r.2.1.dcbs.erase d },
           { r.2.2 with n_persistent := a.2, n_current := r.2.2.n_current - 1 })
        else (true, r.2.1, r.2.2)
      else (true, r.2.1, r.2.2)
    else (true, w, srv)

/-- Result of the reuse loop of `get_backend_dcb_from_pool`. -/
structure ReuseResult where
  res : Option BDcb
  pool : List PersistentEntry
  destroyed : List BDcb
  srv : ServerState
deriving DecidableEq, Repr

/-- The reuse loop of `RoutingWorker::get_backend_dcb_from_pool`
(routingworker.cc:586-618): pop the front entry, decrement `n_persistent`,
restore the protocol handler and try `reuse_connection`; on success bump
`n_from_pool` and `n_current` and stop, on failure close the DCB (under
`m_evicting`, so it is not re-pooled) and continue. -/
def reuse_loop (reuseOk : BDcb → Bool) :
    List PersistentEntry → List BDcb → ServerState → ReuseResult
  | [], destroyed, srv => ⟨none, [], destroyed, srv⟩
  | e :: rest, destroyed, srv =>
    let d : BDcb := { e.dcb with handler := Handler.protocol }
    let srv1 := { srv with n_persistent := srv.n_persistent - 1 }
    if reuseOk d then
      ⟨some d, rest, destroyed,
       { srv1 with n_from_pool := srv1.n_from_pool + 1, n_current := srv1.n_current + 1 }⟩
    else
      reuse_loop reuseOk rest (destroyed ++ [d]) srv1

/-- Embeds `std::set` insertion into `m_dcbs`. -/
def insertDcb (l : List BDcb) (d : BDcb) : List BDcb :=
  if d ∈ l then l else d :: l

/-- Embeds `RoutingWorker::get_backend_dcb_from_pool` (routingworker.cc:572-628):
run the expiry scan, then the reuse loop; a successfully reused DCB is put
back into the regular book-keeping (`m_dcbs`). -/
def get_backend_dcb_from_pool (now : Int) (reuseOk : BDcb → Bool)
    (w : WorkerPoolState) (srv : ServerState) :
    Option BDcb × WorkerPoolState × ServerState :=
  let ev := evict_dcbs now Evict.expired w srv
  let r := reuse_loop reuseOk ev.2.1.pool ev.2.1.destroyed ev.2.2
  match r.res with
  | some d =>
    (some d,
     { ev.2.1 with pool := r.pool, destroyed := r.destroyed, dcbs := insertDcb ev.2.1.dcbs d },
     r.srv)
  | none => (none, { ev.2.1 with pool := r.pool, destroyed := r.destroyed }, r.srv)

/-- The result of `RoutingWorker::get_backend_dcb`: a connection reused from
the pool, or a fresh `BackendDCB::connect`. -/
inductive GetResult
  | reused (d : BDcb)
  | fresh
deriving DecidableEq, Repr

/-- Embeds `RoutingWorker::get_backend_dcb` (routingworker.cc:553-570): the pool is
consulted only when the server has pooling enabled
(`persistent_conns_enabled()`) and is running; when the pool yields
nothing, fall through to a fresh `BackendDCB::connect`. -/
def get_backend_dcb (now : Int) (enabled : Bool) (reuseOk : BDcb → Bool)
    (w : WorkerPoolState) (srv : ServerState) :
    GetResult × WorkerPoolState × ServerState :=
  if enabled && srv.running then
    let r := get_backend_dcb_from_pool now reuseOk w srv
    match r.1 with
    | some d => (GetResult.reused d, r.2.1, r.2.2)
    | none => (GetResult.fresh, r.2.1, r.2.2)
  else (GetResult.fresh, w, srv)

/-- Embeds `RoutingWorker::evict_dcb(BackendDCB*)` (routingworker.cc:744-767), the
pool-handler reaction to any activity on a pooled DCB: find the entry
holding the DCB, erase it and close the DCB.  Note that, unlike the pop in
`get_backend_dcb_from_pool` and the scan in `evict_dcbs`, this path does
not decrement `pool_stats.n_persistent` in the source. -/
def evict_dcb (d : BDcb) (w : WorkerPoolState) (srv : ServerState) :
    WorkerPoolState × ServerState :=
  let w1 := { w with evicting := true, pool := w.pool.eraseP (fun e => e.dcb == d) }
  let w2 := close_pooled_dcb w1 d
  ({ w2 with evicting := false }, srv)

/-- A worker with nothing pooled and nothing registered. -/
def emptyWorker : WorkerPoolState :=
  { pool := [], dcbs := [], evicting := false, destroyed := [] }

/-- The whole pool of routing workers, projected onto one backend server:
every worker's per-server pool plus the shared server counters. -/
structure SysState where
  workers : List WorkerPoolState
  srv : ServerState
deriving Repr

/-- Sum over workers of the size of the persistent pool for the server. -/
def poolSum (s : SysState) : Nat :=
  (s.workers.map (fun w => w.pool.length)).sum

/-- One operation of the runtime that touches the persistent pool of some
worker (the operations named by the specification, plus the pool-handler
eviction and an external change of the server's `running` status). -/
inductive PoolOp
  | acquire (now : Int) (enabled : Bool) (reuseOk : BDcb → Bool)
  | release (now : Int) (d : BDcb)
  | evictExpired (now : Int)
  | evictAll (now : Int)
  | evictOne (d : BDcb)
  | setRunning (b : Bool)

/-- Apply one pool operation at worker index `i`. -/
def applyOp (op : PoolOp) (i : Nat) (s : SysState) : SysState :=
  let w := s.workers.getD i emptyWorker
  match op with
  | .acquire now enabled reuseOk =>
    let r := get_backend_dcb now enabled reuseOk w s.srv
    { workers := s.workers.set i r.2.1, srv := r.2.2 }
  | .release now d =>
    let r := can_be_destroyed now d w s.srv
    { workers := s.workers.set i r.2.1, srv := r.2.2 }
  | .evictExpired now =>
    let r := evict_dcbs now Evict.expired w s.srv
    { workers := s.workers.set i r.2.1, srv := r.2.2 }
  | .evictAll now =>
    let r := evict_dcbs now Evict.all w s.srv
    { workers := s.workers.set i r.2.1, srv := r.2.2 }
  | .evictOne d =>
    let r := evict_dcb d w s.srv
    { workers := s.workers.set i r.1, srv := r.2 }
  | .setRunning b =>
    { s with srv := { s.srv with running := b } }

/-- One step of the pool machine: some operation performed on some worker. -/
inductive Step : SysState → SysState → Prop
  | mk (op : PoolOp) (i : Nat) (s : SysState) (hi : i < s.workers.length) :
      Step s (applyOp op i s)

/-- Reachability in the pool machine. -/
def Reachable (s t : SysState) : Prop :=
  Relation.ReflTransGen Step s t

/-- Fresh system: `nw` workers with empty pools. -/
def initSys (nw : Nat) (srv0 : ServerState) : SysState :=
  { workers := List.replicate nw emptyWorker, srv := srv0 }

/-! ## Structure of the eviction scan -/

theorem evictLoop_length (now : Int) (ev : Evict) (mt mc : Int) :
    ∀ (l : List PersistentEntry) (c : Int),
      (evictLoop now ev mt mc l c).1.length + (evictLoop now ev mt mc l c).2.2.length
        = l.length
  | [], _ => rfl
  | e :: rest, c => by
    simp only [evictLoop]
    split
    · have := evictLoop_length now ev mt mc rest c
      simp only [List.length_cons]
      omega
    · have := evictLoop_length now ev mt mc rest (c + 1)
      simp only [List.length_cons]
      omega

theorem evictLoop_count (now : Int) (ev : Evict) (mt mc : Int) :
    ∀ (l : List PersistentEntry) (c : Int),
      (evictLoop now ev mt mc l c).2.1 = c + (evictLoop now ev mt mc l c).1.length
  | [], _ => by simp [evictLoop]
  | e :: rest, c => by
    simp only [evictLoop]
    split
    · simpa using evictLoop_count now ev mt mc rest c
    · have := evictLoop_count now ev mt mc rest (c + 1)
      simp only [List.length_cons]
      omega

theorem evictLoop_sublist (now : Int) (ev : Evict) (mt mc : Int) :
    ∀ (l : List PersistentEntry) (c : Int),
      (evictLoop now ev mt mc l c).1.Sublist l
  | [], _ => by simp [evictLoop]
  | e :: rest, c => by
    simp only [evictLoop]
    split
    · exact (evictLoop_sublist now ev mt mc rest c).cons e
    · exact (evictLoop_sublist now ev mt mc rest (c + 1)).cons₂ e

theorem evictLoop_count_le (now : Int) (ev : Evict) (mt mc : Int) :
    ∀ (l : List PersistentEntry) (c : Int),
      (evictLoop now ev mt mc l c).2.1 ≤ max (mc + 1) c
  | [], c => by simp [evictLoop]
  | e :: rest, c => by
    simp only [evictLoop]
    split
    · exact evictLoop_count_le now ev mt mc rest c
    · rename_i h
      have hc : ¬ c > mc := by
        intro hgt
        simp [hgt] at h
      have := evictLoop_count_le now ev mt mc rest (c + 1)
      simp only []
      omega

theorem evictLoop_all (now : Int) (mt mc : Int) :
    ∀ (l : List PersistentEntry) (c : Int),
      (evictLoop now Evict.all mt mc l c).1 = []
        ∧ (evictLoop now Evict.all mt mc l c).2.1 = c
  | [], _ => by simp [evictLoop]
  | e :: rest, c => by
    simp only [evictLoop]
    have := evictLoop_all now mt mc rest c
    simp [this.1, this.2]

theorem sum_map_set (f : WorkerPoolState → Int) :
    ∀ (l : List WorkerPoolState) (i : Nat) (x : WorkerPoolState), i < l.length →
      ((l.set i x).map f).sum = (l.map f).sum - f (l.getD i emptyWorker) + f x
  | [], i, x, h => by simp at h
  | w :: rest, 0, x, _ => by
    simp [List.set]
    ring
  | w :: rest, i + 1, x, h => by
    simp only [List.set, List.map_cons, List.sum_cons, List.getD_cons_succ]
    have := sum_map_set f rest i x (by simpa using Nat.lt_of_succ_lt_succ h)
    omega

theorem foldl_close_pooled_dcb (l : List BDcb) (w : WorkerPoolState) :
    (l.foldl close_pooled_dcb w).pool = w.pool
      ∧ (l.foldl close_pooled_dcb w).evicting = w.evicting
      ∧ (l.foldl close_pooled_dcb w).destroyed = w.destroyed ++ l := by
  induction l generalizing w with
  | nil => exact ⟨rfl, rfl, by simp⟩
  | cons d rest ih =>
    have h := ih (close_pooled_dcb w d)
    simp only [close_pooled_dcb] at h
    simpa [List.append_assoc] using h

/-- Net effect of `evict_dcbs` on the pool and the server counters:
the kept pool is a sublist of the old one, `n_persistent` drops by exactly
the number of evicted entries, the returned count is the kept size, and no
other counter or configuration field moves. -/
theorem evict_dcbs_spec (now : Int) (ev : Evict) (w : WorkerPoolState) (srv : ServerState) :
    (evict_dcbs now ev w srv).2.1.pool.Sublist w.pool
    ∧ (evict_dcbs now ev w srv).2.2.n_persistent + (w.pool.length : Int)
        = srv.n_persistent + ((evict_dcbs now ev w srv).2.1.pool.length : Int)
    ∧ (evict_dcbs now ev w srv).1 = ((evict_dcbs now ev w srv).2.1.pool.length : Int)
    ∧ (evict_dcbs now ev w srv).2.2.persistpoolmax = srv.persistpoolmax
    ∧ (evict_dcbs now ev w srv).2.2.persistmaxtime = srv.persistmaxtime
    ∧ (evict_dcbs now ev w srv).2.2.running = srv.running
    ∧ (evict_dcbs now ev w srv).2.2.n_current = srv.n_current
    ∧ (evict_dcbs now ev w srv).2.2.n_from_pool = srv.n_from_pool
    ∧ (evict_dcbs now ev w srv).2.1.evicting = false := by
  unfold evict_dcbs
  set ev' := if srv.running then ev else Evict.all with hev
  have hlen := evictLoop_length now ev' srv.persistmaxtime srv.persistpoolmax w.pool 0
  have hcount := evictLoop_count now ev' srv.persistmaxtime srv.persistpoolmax w.pool 0
  have hsub := evictLoop_sublist now ev' srv.persistmaxtime srv.persistpoolmax w.pool 0
  have hfold := foldl_close_pooled_dcb
    (evictLoop now ev' srv.persistmaxtime srv.persistpoolmax w.pool 0).2.2
    { w with pool := (evictLoop now ev' srv.persistmaxtime srv.persistpoolmax w.pool 0).1,
             evicting := true }
  refine ⟨by simpa [hfold.1] using hsub, ?_, ?_, rfl, rfl, rfl, rfl, rfl, rfl⟩
  · simp only [hfold.1]
    omega
  · simp only [hfold.1, hcount]
    omega

/-- Net effect of the reuse loop on pool and counters. -/
theorem reuse_loop_spec (ro : BDcb → Bool) :
    ∀ (l : List PersistentEntry) (dest : List BDcb) (srv : ServerState),
      (reuse_loop ro l dest srv).srv.n_persistent + (l.length : Int)
          = srv.n_persistent + ((reuse_loop ro l dest srv).pool.length : Int)
      ∧ (reuse_loop ro l dest srv).pool.Sublist l
      ∧ (reuse_loop ro l dest srv).srv.persistpoolmax = srv.persistpoolmax
      ∧ (reuse_loop ro l dest srv).srv.persistmaxtime = srv.persistmaxtime
      ∧ (reuse_loop ro l dest srv).srv.running = srv.running
      ∧ (reuse_loop ro l dest srv).srv.n_from_pool
          = srv.n_from_pool + (if (reuse_loop ro l dest srv).res.isSome then 1 else 0)
      ∧ (reuse_loop ro l dest srv).srv.n_current
          = srv.n_current + (if (reuse_loop ro l dest srv).res.isSome then 1 else 0)
  | [], dest, srv => by simp [reuse_loop]
  | e :: rest, dest, srv => by
    simp only [reuse_loop]
    split
    · refine ⟨?_, (List.Sublist.refl rest).cons e, rfl, rfl, rfl, ?_, ?_⟩
      · simp only [List.length_cons]
        push_cast
        omega
      · simp
      · simp
    · have ih := reuse_loop_spec ro rest (dest ++ [{ e.dcb with handler := Handler.protocol }])
        { srv with n_persistent := srv.n_persistent - 1 }
      refine ⟨?_, ih.2.1.cons e, ih.2.2.1, ih.2.2.2.1, ih.2.2.2.2.1, ih.2.2.2.2.2.1,
        ih.2.2.2.2.2.2⟩
      have := ih.1
      simp only [List.length_cons]
      push_cast
      push_cast at this
      omega

/-- Net effect of `get_backend_dcb_from_pool` on pool and counters. -/
theorem from_pool_spec (now : Int) (ro : BDcb → Bool) (w : WorkerPoolState) (srv : ServerState) :
    (get_backend_dcb_from_pool now ro w srv).2.1.pool.Sublist w.pool
    ∧ (get_backend_dcb_from_pool now ro w srv).2.2.n_persistent + (w.pool.length : Int)
        = srv.n_persistent + ((get_backend_dcb_from_pool now ro w srv).2.1.pool.length : Int)
    ∧ (get_backend_dcb_from_pool now ro w srv).2.2.persistpoolmax = srv.persistpoolmax
    ∧ (get_backend_dcb_from_pool now ro w srv).2.2.persistmaxtime = srv.persistmaxtime
    ∧ (get_backend_dcb_from_pool now ro w srv).2.2.running = srv.running
    ∧ (get_backend_dcb_from_pool now ro w srv).2.2.n_from_pool
        = srv.n_from_pool
          + (if (get_backend_dcb_from_pool now ro w srv).1.isSome then 1 else 0)
    ∧ (get_backend_dcb_from_pool now ro w srv).2.2.n_current
        = srv.n_current
          + (if (get_backend_dcb_from_pool now ro w srv).1.isSome then 1 else 0) := by
  obtain ⟨he1, he2, he3, he4, he5, he6, he7, he8, he9⟩ :=
    evict_dcbs_spec now Evict.expired w srv
  obtain ⟨hr1, hr2, hr3, hr4, hr5, hr6, hr7⟩ :=
    reuse_loop_spec ro (evict_dcbs now Evict.expired w srv).2.1.pool
      (evict_dcbs now Evict.expired w srv).2.1.destroyed
      (evict_dcbs now Evict.expired w srv).2.2
  unfold get_backend_dcb_from_pool
  rcases hres : (reuse_loop ro (evict_dcbs now Evict.expired w srv).2.1.pool
      (evict_dcbs now Evict.expired w srv).2.1.destroyed
      (evict_dcbs now Evict.expired w srv).2.2).res with _ | d <;>
    simp only [hres, Option.isSome_none, Option.isSome_some, if_false, if_true,
      Bool.false_eq_true] at hr6 hr7 ⊢ <;>
    refine ⟨hr2.trans he1, ?_, hr3.trans he4, hr4.trans he5, hr5.trans he6, ?_, ?_⟩ <;>
    dsimp only <;>
    omega

/-- Net effect of `get_backend_dcb` on pool and counters. -/
theorem get_backend_dcb_spec (now : Int) (enabled : Bool) (ro : BDcb → Bool)
    (w : WorkerPoolState) (srv : ServerState) :
    (get_backend_dcb now enabled ro w srv).2.1.pool.Sublist w.pool
    ∧ (get_backend_dcb now enabled ro w srv).2.2.n_persistent + (w.pool.length : Int)
        = srv.n_persistent + ((get_backend_dcb now enabled ro w srv).2.1.pool.length : Int)
    ∧ (get_backend_dcb now enabled ro w srv).2.2.persistpoolmax = srv.persistpoolmax
    ∧ (get_backend_dcb now enabled ro w srv).2.2.persistmaxtime = srv.persistmaxtime
    ∧ (get_backend_dcb now enabled ro w srv).2.2.running = srv.running := by
  unfold get_backend_dcb
  split
  · obtain ⟨h1, h2, h3, h4, h5, _, _⟩ := from_pool_spec now ro w srv
    rcases hres : (get_backend_dcb_from_pool now ro w srv).1 with _ | d <;>
      simp only [hres] at h1 h2 h3 h4 h5 ⊢ <;>
      exact ⟨h1, h2, h3, h4, h5⟩
  · exact ⟨List.Sublist.refl _, rfl, rfl, rfl, rfl⟩

theorem add_limited_cases (n delta bound : Int) :
    (add_limited n delta bound = (true, n + delta) ∧ n + delta ≤ bound)
      ∨ (add_limited n delta bound = (false, n) ∧ ¬n + delta ≤ bound) := by
  unfold add_limited
  split <;> simp_all

/-- Net effect of `can_be_destroyed` on pool and counters: the counter and
pool sizes move in lock step, and the counter never ends above both its old
value and `persistpoolmax`. -/
theorem can_be_destroyed_counters (now : Int) (d : BDcb) (w : WorkerPoolState)
    (srv : ServerState) :
    (can_be_destroyed now d w srv).2.2.n_persistent + (w.pool.length : Int)
        = srv.n_persistent + ((can_be_destroyed now d w srv).2.1.pool.length : Int)
    ∧ (can_be_destroyed now d w srv).2.2.n_persistent
        ≤ max srv.n_persistent srv.persistpoolmax
    ∧ (can_be_destroyed now d w srv).2.2.persistpoolmax = srv.persistpoolmax
    ∧ (can_be_destroyed now d w srv).2.2.persistmaxtime = srv.persistmaxtime
    ∧ (can_be_destroyed now d w srv).2.2.running = srv.running := by
  obtain ⟨he1, he2, he3, he4, he5, he6, he7, he8, he9⟩ :=
    evict_dcbs_spec now Evict.expired w srv
  have hsub := he1.length_le
  by_cases hev : w.evicting = true
  · simp [can_be_destroyed, hev, le_max_left]
  by_cases hcond : (d.polling && d.established && d.sessionOk
      && decide (srv.persistpoolmax > 0) && srv.running && !d.hanged_up) = true
  · by_cases hcnt : (evict_dcbs now Evict.expired w srv).1 < srv.persistpoolmax
    · by_cases hok : (evict_dcbs now Evict.expired w srv).2.2.n_persistent + 1
          ≤ srv.persistpoolmax
      · simp only [can_be_destroyed, add_limited, hev, hcond, hcnt, hok]
        simp only [Bool.false_eq_true, if_false, if_true, ite_true, ite_false]
        refine ⟨?_, ?_, he4, he5, he6⟩
        · simp only [List.length_append, List.length_cons, List.length_nil]
          push_cast
          omega
        · simp only [le_max_iff]
          omega
      · simp only [can_be_destroyed, add_limited, hev, hcond, hcnt, hok]
        simp only [Bool.false_eq_true, if_false, if_true, ite_true, ite_false]
        exact ⟨he2, by simp only [le_max_iff]; omega, he4, he5, he6⟩
    · simp only [can_be_destroyed, add_limited, hev, hcond, hcnt]
      simp only [Bool.false_eq_true, if_false, if_true, ite_true, ite_false]
      exact ⟨he2, by simp only [le_max_iff]; omega, he4, he5, he6⟩
  · simp [can_be_destroyed, hev, hcond, le_max_left]

/-- Net effect of `evict_dcb` (pool-handler eviction): the pool shrinks by
the erased entry while the server state — including `n_persistent` — is
left untouched. -/
theorem evict_dcb_spec (d : BDcb) (w : WorkerPoolState) (srv : ServerState) :
    (evict_dcb d w srv).1.pool.Sublist w.pool
    ∧ (evict_dcb d w srv).2 = srv := by
  unfold evict_dcb close_pooled_dcb
  exact ⟨List.eraseP_sublist _, rfl⟩

/-! ## The quiescent-point invariant -/

/-- Sum over workers of the size of the persistent pool, as an integer. -/
def poolSumZ (s : SysState) : Int :=
  (s.workers.map (fun w => (w.pool.length : Int))).sum

/-- The machine invariant: the pools never hold more entries than
`n_persistent` counts, and `n_persistent` never exceeds `persistpoolmax`. -/
def Inv (s : SysState) : Prop :=
  poolSumZ s ≤ s.srv.n_persistent ∧ s.srv.n_persistent ≤ s.srv.persistpoolmax

theorem applyOp_inv (op : PoolOp) (i : Nat) (s : SysState) (hi : i < s.workers.length)
    (h : Inv s) : Inv (applyOp op i s) := by
  obtain ⟨h1, h2⟩ := h
  cases op with
  | acquire now enabled ro =>
    obtain ⟨g1, g2, g3, -, -⟩ :=
      get_backend_dcb_spec now enabled ro (s.workers.getD i emptyWorker) s.srv
    have hl := g1.length_le
    have hs := sum_map_set (fun w => (w.pool.length : Int)) s.workers i
      (get_backend_dcb now enabled ro (s.workers.getD i emptyWorker) s.srv).2.1 hi
    constructor <;> simp only [applyOp, poolSumZ, Inv] at * <;> omega
  | release now d =>
    obtain ⟨g1, g2, g3, -, -⟩ :=
      can_be_destroyed_counters now d (s.workers.getD i emptyWorker) s.srv
    rw [max_eq_right h2] at g2
    have hs := sum_map_set (fun w => (w.pool.length : Int)) s.workers i
      (can_be_destroyed now d (s.workers.getD i emptyWorker) s.srv).2.1 hi
    constructor <;> simp only [applyOp, poolSumZ, Inv] at * <;> omega
  | evictExpired now =>
    obtain ⟨g1, g2, -, g4, -⟩ :=
      evict_dcbs_spec now Evict.expired (s.workers.getD i emptyWorker) s.srv
    have hl := g1.length_le
    have hs := sum_map_set (fun w => (w.pool.length : Int)) s.workers i
      (evict_dcbs now Evict.expired (s.workers.getD i emptyWorker) s.srv).2.1 hi
    constructor <;> simp only [applyOp, poolSumZ, Inv] at * <;> omega
  | evictAll now =>
    obtain ⟨g1, g2, -, g4, -⟩ :=
      evict_dcbs_spec now Evict.all (s.workers.getD i emptyWorker) s.srv
    have hl := g1.length_le
    have hs := sum_map_set (fun w => (w.pool.length : Int)) s.workers i
      (evict_dcbs now Evict.all (s.workers.getD i emptyWorker) s.srv).2.1 hi
    constructor <;> simp only [applyOp, poolSumZ, Inv] at * <;> omega
  | evictOne d =>
    obtain ⟨g1, g2⟩ := evict_dcb_spec d (s.workers.getD i emptyWorker) s.srv
    have hl := g1.length_le
    have hs := sum_map_set (fun w => (w.pool.length : Int)) s.workers i
      (evict_dcb d (s.workers.getD i emptyWorker) s.srv).1 hi
    constructor <;> simp only [applyOp, poolSumZ, Inv, g2] at * <;> omega
  | setRunning b =>
    exact ⟨h1, h2⟩

theorem reachable_inv (s t : SysState) (h : Inv s) (hr : Reachable s t) : Inv t := by
  induction hr with
  | refl => exact h
  | tail _ step ih =>
    cases step with
    | mk op i _ hi => exact applyOp_inv op i _ hi ih

theorem initSys_inv (nw : Nat) (srv0 : ServerState) (h0 : srv0.n_persistent = 0)
    (hmax : 0 ≤ srv0.persistpoolmax) : Inv (initSys nw srv0) := by
  refine ⟨?_, by simp [initSys]; omega⟩
  simp [initSys, poolSumZ, emptyWorker, List.map_replicate]
  omega

/-! ## The eviction rule, written from the specification's words -/

/-- The eviction rule exactly as the specification states it: "For each
entry: if the DCB reports a hangup, OR `now - entry.created > pool_max_age`,
OR the running count so far exceeds `pool_max_count`, OR the server is not
running (in which case evict all) — remove it and collect for closure;
otherwise increment the keep-count."  Returns the kept entries and the
collected DCBs. -/
def spec_scan (running : Bool) (now maxage maxcount : Int) :
    List PersistentEntry → Int → List PersistentEntry × List BDcb
  | [], _ => ([], [])
  | e :: rest, keep =>
    if e.dcb.hanged_up || decide (now - e.created > maxage) || decide (keep > maxcount)
        || !running then
      let r := spec_scan running now maxage maxcount rest keep
      (r.1, e.dcb :: r.2)
    else
      let r := spec_scan running now maxage maxcount rest (keep + 1)
      (e :: r.1, r.2)

theorem evictLoop_eq_spec_scan (running : Bool) (now mt mc : Int) :
    ∀ (l : List PersistentEntry) (c : Int),
      (evictLoop now (if running then Evict.expired else Evict.all) mt mc l c).1
          = (spec_scan running now mt mc l c).1
        ∧ (evictLoop now (if running then Evict.expired else Evict.all) mt mc l c).2.2
          = (spec_scan running now mt mc l c).2
  | [], c => by cases running <;> simp [evictLoop, spec_scan]
  | e :: rest, c => by
    have ih1 := evictLoop_eq_spec_scan running now mt mc rest c
    have ih2 := evictLoop_eq_spec_scan running now mt mc rest (c + 1)
    cases running
    · simp only [Bool.false_eq_true, if_false] at ih1 ih2 ⊢
      simp only [evictLoop, spec_scan,
        show (Evict.all == Evict.all) = true from rfl, Bool.true_or, Bool.or_true,
        Bool.not_false, if_true]
      exact ⟨ih1.1, by simp [ih1.2]⟩
    · simp only [if_true] at ih1 ih2 ⊢
      simp only [evictLoop, spec_scan,
        show (Evict.expired == Evict.all) = false from rfl, Bool.false_or,
        Bool.not_true, Bool.or_false]
      by_cases hc : (e.dcb.hanged_up || decide (now - e.created > mt)
          || decide (c > mc)) = true
      · simp only [hc, if_true]
        exact ⟨ih1.1, by simp [ih1.2]⟩
      · simp only [Bool.not_eq_true] at hc
        simp only [hc, Bool.false_eq_true, if_false]
        exact ⟨by simp [ih2.1], ih2.2⟩

theorem evict_dcbs_refines_spec_scan (now : Int) (w : WorkerPoolState) (srv : ServerState) :
    (evict_dcbs now Evict.expired w srv).2.1.pool
        = (spec_scan srv.running now srv.persistmaxtime srv.persistpoolmax w.pool 0).1
      ∧ (evict_dcbs now Evict.expired w srv).2.1.destroyed
        = w.destroyed
          ++ (spec_scan srv.running now srv.persistmaxtime srv.persistpoolmax w.pool 0).2 := by
  have h := evictLoop_eq_spec_scan srv.running now srv.persistmaxtime srv.persistpoolmax w.pool 0
  have hfold := foldl_close_pooled_dcb
    (evictLoop now (if srv.running then Evict.expired else Evict.all)
      srv.persistmaxtime srv.persistpoolmax w.pool 0).2.2
    { w with
      pool := (evictLoop now (if srv.running then Evict.expired else Evict.all)
        srv.persistmaxtime srv.persistpoolmax w.pool 0).1,
      evicting := true }
  constructor
  · simpa [evict_dcbs, hfold.1] using h.1
  · have hd := hfold.2.2
    simp only [evict_dcbs]
    simp only [hd]
    simp [h.2]

theorem getD_mem_of_lt (l : List WorkerPoolState) (i : Nat) (hi : i < l.length) :
    l.getD i emptyWorker ∈ l := by
  rw [List.getD_eq_getElem l emptyWorker hi]
  exact List.getElem_mem hi

/-- C3: at every reachable state of the pool machine, every worker's
persistent pool for the server holds at most `persistpoolmax` entries;
the expiry scan (`evict_dcbs` with `Evict::EXPIRED`) run at a reachable
state keeps at most `persistpoolmax` entries and returns a keep-count of
at most `persistpoolmax`; and the scan keeps and removes exactly the
entries described by the specification's eviction rule (`spec_scan`):
remove on hangup, or age above `pool_max_age`, or running keep-count
above `pool_max_count`, or — for every entry — a server that is not
running. -/
theorem claim_C3_pool_bound (nw : Nat) (srv0 : ServerState) (s : SysState)
    (h0 : srv0.n_persistent = 0) (hmax : 0 ≤ srv0.persistpoolmax)
    (hr : Reachable (initSys nw srv0) s) :
    (∀ w ∈ s.workers, (w.pool.length : Int) ≤ s.srv.persistpoolmax)
    ∧ (∀ (now : Int) (i : Nat), i < s.workers.length →
        ((evict_dcbs now Evict.expired (s.workers.getD i emptyWorker) s.srv).2.1.pool.length :
            Int) ≤ s.srv.persistpoolmax
        ∧ (evict_dcbs now Evict.expired (s.workers.getD i emptyWorker) s.srv).1
            ≤ s.srv.persistpoolmax)
    ∧ (∀ (now : Int) (w : WorkerPoolState) (srv : ServerState),
        (evict_dcbs now Evict.expired w srv).2.1.pool
            = (spec_scan srv.running now srv.persistmaxtime srv.persistpoolmax w.pool 0).1
        ∧ (evict_dcbs now Evict.expired w srv).2.1.destroyed
            = w.destroyed
              ++ (spec_scan srv.running now srv.persistmaxtime srv.persistpoolmax w.pool 0).2) := by
  obtain ⟨h1, h2⟩ := reachable_inv _ _ (initSys_inv nw srv0 h0 hmax) hr
  have hbound : ∀ w ∈ s.workers, (w.pool.length : Int) ≤ s.srv.persistpoolmax := by
    intro w hw
    have hmem : ((w.pool.length : Int)) ∈ s.workers.map (fun v => (v.pool.length : Int)) :=
      List.mem_map_of_mem _ hw
    have hle : ((w.pool.length : Int)) ≤ poolSumZ s :=
      List.single_le_sum (by intro x hx; simp at hx; obtain ⟨v, -, rfl⟩ := hx; positivity) _ hmem
    omega
  refine ⟨hbound, ?_, fun now w srv => evict_dcbs_refines_spec_scan now w srv⟩
  intro now i hi
  obtain ⟨g1, -, g3, -, -, -, -, -, -⟩ :=
    evict_dcbs_spec now Evict.expired (s.workers.getD i emptyWorker) s.srv
  have hw := hbound _ (getD_mem_of_lt s.workers i hi)
  have hl := g1.length_le
  constructor
  · omega
  · omega

/-- Concrete worker state for the `evict_dcb` counter-leak: one pooled
entry, counter in agreement. -/
def dcbC1 : BDcb :=
  { id := 0, polling := true, established := true, hanged_up := false,
    sessionOk := true, handler := Handler.pool, cleared := true }

def workerC1 : WorkerPoolState :=
  { pool := [{ created := 0, dcb := dcbC1 }], dcbs := [], evicting := false, destroyed := [] }

def serverC1 : ServerState :=
  { running := true, persistpoolmax := 2, persistmaxtime := 100,
    n_persistent := 1, n_current := 0, n_from_pool := 0, persistmax := 0 }

/-- C1: the counter invariant `n_persistent = Σ |pool|` holds before the
pool-handler eviction (`evict_dcb`) and is broken by it: the entry leaves
the pool but `pool_stats.n_persistent` is not decremented, so the counter
reads 1 while the pools are empty. -/
theorem claim_C1_n_persistent_leak :
    serverC1.n_persistent = (workerC1.pool.length : Int)
    ∧ (evict_dcb dcbC1 workerC1 serverC1).1.pool.length = 0
    ∧ (evict_dcb dcbC1 workerC1 serverC1).2.n_persistent = 1 := by
  decide

theorem evictLoop_evicted_mem (now : Int) (ev : Evict) (mt mc : Int) :
    ∀ (l : List PersistentEntry) (c : Int) (b : BDcb),
      b ∈ (evictLoop now ev mt mc l c).2.2 → b ∈ l.map (fun e => e.dcb)
  | [], c, b => by simp [evictLoop]
  | e :: rest, c, b => by
    simp only [evictLoop]
    split
    · intro hb
      simp only [List.mem_cons] at hb
      rcases hb with rfl | hb
      · simp
      · simp only [List.map_cons, List.mem_cons]
        exact Or.inr (evictLoop_evicted_mem now ev mt mc rest c b hb)
    · intro hb
      simp only [List.map_cons, List.mem_cons]
      exact Or.inr (evictLoop_evicted_mem now ev mt mc rest (c + 1) b hb)

theorem foldl_close_pooled_dcb_dcbs (l : List BDcb) (w : WorkerPoolState)
    (h : ∀ d ∈ l, d ∉ w.dcbs) :
    (l.foldl close_pooled_dcb w).dcbs = w.dcbs := by
  induction l generalizing w with
  | nil => rfl
  | cons d rest ih =>
    have hd : d ∉ w.dcbs := h d (List.mem_cons_self d rest)
    have hstep : (close_pooled_dcb w d).dcbs = w.dcbs := by
      simp [close_pooled_dcb, hd, List.erase_cons_head]
    have := ih (close_pooled_dcb w d)
      (by intro x hx; rw [hstep]; exact h x (List.mem_cons_of_mem d hx))
    simpa [hstep] using this

/-- Under the invariant that pooled DCBs are not in the live set
(specification invariant 2), the expiry scan leaves `m_dcbs` unchanged:
the evicted DCBs are put back only for the duration of the close. -/
theorem evict_dcbs_dcbs (now : Int) (ev : Evict) (w : WorkerPoolState) (srv : ServerState)
    (hdisj : ∀ e ∈ w.pool, e.dcb ∉ w.dcbs) :
    (evict_dcbs now ev w srv).2.1.dcbs = w.dcbs := by
  unfold evict_dcbs
  have hmem := evictLoop_evicted_mem now (if srv.running then ev else Evict.all)
    srv.persistmaxtime srv.persistpoolmax w.pool 0
  have := foldl_close_pooled_dcb_dcbs
    (evictLoop now (if srv.running then ev else Evict.all)
      srv.persistmaxtime srv.persistpoolmax w.pool 0).2.2
    { w with
      pool := (evictLoop now (if srv.running then ev else Evict.all)
        srv.persistmaxtime srv.persistpoolmax w.pool 0).1,
      evicting := true }
    (by
      intro b hb
      obtain ⟨e, he, rfl⟩ := List.mem_map.mp (hmem b hb)
      exact hdisj e he)
  simpa using this

/-- C4 (amended): `can_be_destroyed` returns true whenever the per-worker
evicting flag is set, leaving the state untouched; when the flag is clear,
all pooling conditions hold, the keep-count left by the expiry scan is
below `pool_max_count` and the bounded increment succeeds, it clears the
DCB, installs the pool handler, appends the entry at the back of the pool,
removes the DCB from the live set, decrements `n_current` and returns
false; in every other case it returns true and performs no insertion —
the live set and `n_current` are unchanged and the pool only loses
entries, because the guard's expiry scan may still evict expired or
hung-up entries and decrement `n_persistent` accordingly. -/
theorem claim_C4_can_be_destroyed (now : Int) (d : BDcb) (w : WorkerPoolState)
    (srv : ServerState) (hdisj : ∀ e ∈ w.pool, e.dcb ∉ w.dcbs) :
    (w.evicting = true → can_be_destroyed now d w srv = (true, w, srv))
    ∧ (w.evicting = false →
        (d.polling && d.established && d.sessionOk && decide (srv.persistpoolmax > 0)
          && srv.running && !d.hanged_up) = true →
        (evict_dcbs now Evict.expired w srv).1 < srv.persistpoolmax →
        (evict_dcbs now Evict.expired w srv).2.2.n_persistent + 1 ≤ srv.persistpoolmax →
        can_be_destroyed now d w srv =
          (false,
           { (evict_dcbs now Evict.expired w srv).2.1 with
             pool := (evict_dcbs now Evict.expired w srv).2.1.pool
               ++ [{ created := now,
                     dcb := { d with cleared := true, handler := Handler.pool } }],
             dcbs := (evict_dcbs now Evict.expired w srv).2.1.dcbs.erase d },
           { (evict_dcbs now Evict.expired w srv).2.2 with
             n_persistent := (evict_dcbs now Evict.expired w srv).2.2.n_persistent + 1,
             n_current := (evict_dcbs now Evict.expired w srv).2.2.n_current - 1 }))
    ∧ ((can_be_destroyed now d w srv).1 = true →
        (can_be_destroyed now d w srv).2.1.pool.Sublist w.pool
        ∧ (can_be_destroyed now d w srv).2.1.dcbs = w.dcbs
        ∧ (can_be_destroyed now d w srv).2.2.n_current = srv.n_current
        ∧ (can_be_destroyed now d w srv).2.2.n_persistent ≤ srv.n_persistent) := by
  obtain ⟨he1, he2, he3, he4, he5, he6, he7, he8, he9⟩ :=
    evict_dcbs_spec now Evict.expired w srv
  have hsub := he1.length_le
  have hdd := evict_dcbs_dcbs now Evict.expired w srv hdisj
  refine ⟨?_, ?_, ?_⟩
  · intro hev
    simp [can_be_destroyed, hev]
  · intro hev hcond hcnt hok
    simp only [can_be_destroyed, hev, Bool.false_eq_true, if_false, hcond, if_true]
    rw [if_pos hcnt]
    simp only [add_limited, if_pos hok, if_true]
  · intro hrv
    by_cases hev : w.evicting = true
    · simp [can_be_destroyed, hev]
    by_cases hcond : (d.polling && d.established && d.sessionOk
        && decide (srv.persistpoolmax > 0) && srv.running && !d.hanged_up) = true
    · by_cases hcnt : (evict_dcbs now Evict.expired w srv).1 < srv.persistpoolmax
      · by_cases hok : (evict_dcbs now Evict.expired w srv).2.2.n_persistent + 1
            ≤ srv.persistpoolmax
        · exfalso
          simp only [can_be_destroyed, hev, Bool.false_eq_true, if_false, hcond, if_true]
            at hrv
          rw [if_pos hcnt] at hrv
          simp only [add_limited, if_pos hok, if_true] at hrv
          exact absurd hrv (by simp)
        · simp only [can_be_destroyed, hev, Bool.false_eq_true, if_false, hcond, if_true]
          rw [if_pos hcnt]
          simp only [add_limited, if_neg hok]
          simp only [Bool.false_eq_true, if_false]
          exact ⟨he1, hdd, he7, by omega⟩
      · simp only [can_be_destroyed, hev, Bool.false_eq_true, if_false, hcond, if_true]
        rw [if_neg hcnt]
        dsimp only
        exact ⟨he1, hdd, he7, by omega⟩
    · simp [can_be_destroyed, hev, hcond]

/-- Concrete input refuting the "otherwise unchanged" clause of C4: one
expired entry in the pool, pooling conditions all true, global counter at
2 with `persistpoolmax = 1`. -/
def dcbC4 : BDcb :=
  { id := 7, polling := true, established := true, hanged_up := false,
    sessionOk := true, handler := Handler.protocol, cleared := false }

def entryC4 : PersistentEntry :=
  { created := 0,
    dcb := { id := 3, polling := true, established := true, hanged_up := false,
             sessionOk := true, handler := Handler.pool, cleared := true } }

def workerC4 : WorkerPoolState :=
  { pool := [entryC4], dcbs := [], evicting := false, destroyed := [] }

def serverC4 : ServerState :=
  { running := true, persistpoolmax := 1, persistmaxtime := 0,
    n_persistent := 2, n_current := 3, n_from_pool := 0, persistmax := 0 }

/-- C4 counterexample: at this input `can_be_destroyed` returns true, yet
the pool and `n_persistent` change — the guard's expiry scan evicted the
expired entry before the bounded increment failed — refuting "in every
other case it returns true and leaves the pool, the live set, and the
counters unchanged". -/
theorem claim_C4_counterexample :
    (can_be_destroyed 5 dcbC4 workerC4 serverC4).1 = true
    ∧ (can_be_destroyed 5 dcbC4 workerC4 serverC4).2.1.pool ≠ workerC4.pool
    ∧ (can_be_destroyed 5 dcbC4 workerC4 serverC4).2.2.n_persistent
        ≠ serverC4.n_persistent := by
  decide

/-- C4 witness: the amended theorem applied at a concrete input with the
evicting flag set. -/
theorem claim_C4_witness :
    can_be_destroyed 5 dcbC4
        { workerC4 with evicting := true } serverC4
      = (true, { workerC4 with evicting := true }, serverC4) :=
  (claim_C4_can_be_destroyed 5 dcbC4 { workerC4 with evicting := true } serverC4
    (by decide)).1 rfl

def serverC3 : ServerState :=
  { running := true, persistpoolmax := 2, persistmaxtime := 60,
    n_persistent := 0, n_current := 0, n_from_pool := 0, persistmax := 0 }

/-- C3 witness: the bound holds at the fresh two-worker system. -/
theorem claim_C3_witness :
    serverC3.n_persistent = 0 ∧ 0 ≤ serverC3.persistpoolmax
    ∧ ∀ w ∈ (initSys 2 serverC3).workers,
        (w.pool.length : Int) ≤ (initSys 2 serverC3).srv.persistpoolmax :=
  ⟨rfl, by decide,
   (claim_C3_pool_bound 2 serverC3 (initSys 2 serverC3) rfl (by decide)
     Relation.ReflTransGen.refl).1⟩

/-! ## Pool acquisition (C6) -/

theorem reuse_loop_none_of_all_fail (ro : BDcb → Bool) :
    ∀ (l : List PersistentEntry) (dest : List BDcb) (srv : ServerState),
      (∀ e ∈ l, ro { e.dcb with handler := Handler.protocol } = false) →
      (reuse_loop ro l dest srv).res = none
  | [], dest, srv, _ => rfl
  | e :: rest, dest, srv, h => by
    simp only [reuse_loop, h e (List.mem_cons_self e rest), Bool.false_eq_true, if_false]
    exact reuse_loop_none_of_all_fail ro rest _ _
      (fun x hx => h x (List.mem_cons_of_mem e hx))

theorem reuse_loop_some_reuseOk (ro : BDcb → Bool) :
    ∀ (l : List PersistentEntry) (dest : List BDcb) (srv : ServerState) (d : BDcb),
      (reuse_loop ro l dest srv).res = some d → ro d = true
  | [], dest, srv, d => by simp [reuse_loop]
  | e :: rest, dest, srv, d => by
    simp only [reuse_loop]
    split
    · rename_i h
      intro hd
      simp only [Option.some.injEq] at hd
      exact hd ▸ h
    · exact reuse_loop_some_reuseOk ro rest _ _ d

theorem reuse_loop_destroyed_mem (ro : BDcb → Bool) :
    ∀ (l : List PersistentEntry) (dest : List BDcb) (srv : ServerState) (b : BDcb),
      b ∈ dest → b ∈ (reuse_loop ro l dest srv).destroyed
  | [], dest, srv, b, hb => by simpa [reuse_loop] using hb
  | e :: rest, dest, srv, b, hb => by
    simp only [reuse_loop]
    split
    · simpa using hb
    · exact reuse_loop_destroyed_mem ro rest _ _ b (by simp [hb])

theorem mem_insertDcb (l : List BDcb) (d : BDcb) : d ∈ insertDcb l d := by
  unfold insertDcb
  split
  · assumption
  · exact List.mem_cons_self d l

theorem from_pool_some_reuseOk (now : Int) (ro : BDcb → Bool) (w : WorkerPoolState)
    (srv : ServerState) (d : BDcb)
    (h : (get_backend_dcb_from_pool now ro w srv).1 = some d) : ro d = true := by
  unfold get_backend_dcb_from_pool at h
  dsimp only at h
  rcases hres2 : (reuse_loop ro (evict_dcbs now Evict.expired w srv).2.1.pool
      (evict_dcbs now Evict.expired w srv).2.1.destroyed
      (evict_dcbs now Evict.expired w srv).2.2).res with _ | d2
  · rw [hres2] at h
    simp at h
  · rw [hres2] at h
    simp only [Option.some.injEq] at h
    subst h
    exact reuse_loop_some_reuseOk ro _ _ _ _ hres2

theorem from_pool_some_mem (now : Int) (ro : BDcb → Bool) (w : WorkerPoolState)
    (srv : ServerState) (d : BDcb)
    (h : (get_backend_dcb_from_pool now ro w srv).1 = some d) :
    d ∈ (get_backend_dcb_from_pool now ro w srv).2.1.dcbs := by
  unfold get_backend_dcb_from_pool at h ⊢
  dsimp only at h ⊢
  rcases hres2 : (reuse_loop ro (evict_dcbs now Evict.expired w srv).2.1.pool
      (evict_dcbs now Evict.expired w srv).2.1.destroyed
      (evict_dcbs now Evict.expired w srv).2.2).res with _ | d2
  · rw [hres2] at h
    simp at h
  · rw [hres2] at h
    simp only [Option.some.injEq] at h
    subst h
    exact mem_insertDcb _ d2

/-- C6: `get_backend_dcb` falls back to a fresh `BackendDCB::connect` when
the server disallows pooling or is not running, and when every pool entry
fails `reuse_connection`; a popped entry that fails reuse is closed — the
close runs with the evicting flag set, under which `can_be_destroyed`
returns true unchanged, so the DCB is not re-pooled — and the loop
continues with the next entry (`n_persistent` already decremented for the
pop); on reuse success the DCB is re-inserted into the live DCB set and
`pool_stats.n_from_pool` and `n_current` are each incremented by one. -/
theorem claim_C6_get_backend_dcb (now : Int) (enabled : Bool) (ro : BDcb → Bool)
    (w : WorkerPoolState) (srv : ServerState) :
    ((enabled && srv.running) = false →
        get_backend_dcb now enabled ro w srv = (GetResult.fresh, w, srv))
    ∧ ((∀ e ∈ w.pool, ro { e.dcb with handler := Handler.protocol } = false) →
        (get_backend_dcb now enabled ro w srv).1 = GetResult.fresh)
    ∧ (∀ d, (get_backend_dcb now enabled ro w srv).1 = GetResult.reused d →
        ro d = true
        ∧ d ∈ (get_backend_dcb now enabled ro w srv).2.1.dcbs
        ∧ (get_backend_dcb now enabled ro w srv).2.2.n_from_pool = srv.n_from_pool + 1
        ∧ (get_backend_dcb now enabled ro w srv).2.2.n_current = srv.n_current + 1)
    ∧ (∀ (e : PersistentEntry) (rest : List PersistentEntry) (dest : List BDcb)
          (srv2 : ServerState),
        ro { e.dcb with handler := Handler.protocol } = false →
        reuse_loop ro (e :: rest) dest srv2
            = reuse_loop ro rest (dest ++ [{ e.dcb with handler := Handler.protocol }])
                { srv2 with n_persistent := srv2.n_persistent - 1 }
        ∧ { e.dcb with handler := Handler.protocol }
            ∈ (reuse_loop ro (e :: rest) dest srv2).destroyed)
    ∧ (∀ (d : BDcb) (w2 : WorkerPoolState) (srv2 : ServerState), w2.evicting = true →
        can_be_destroyed now d w2 srv2 = (true, w2, srv2)) := by
  refine ⟨?_, ?_, ?_, ?_, ?_⟩
  · intro hdis
    simp [get_backend_dcb, hdis]
  · intro hfail
    unfold get_backend_dcb
    split
    · have hsub := (evict_dcbs_spec now Evict.expired w srv).1
      have hnone := reuse_loop_none_of_all_fail ro
        (evict_dcbs now Evict.expired w srv).2.1.pool
        (evict_dcbs now Evict.expired w srv).2.1.destroyed
        (evict_dcbs now Evict.expired w srv).2.2
        (fun e he => hfail e (hsub.subset he))
      unfold get_backend_dcb_from_pool
      simp only [hnone]
    · rfl
  · intro d hd
    by_cases henb : (enabled && srv.running) = true
    · unfold get_backend_dcb at hd ⊢
      rw [if_pos henb] at hd ⊢
      dsimp only at hd ⊢
      rcases hres : (get_backend_dcb_from_pool now ro w srv).1 with _ | d'
      · rw [hres] at hd
        simp at hd
      · rw [hres] at hd
        simp only [GetResult.reused.injEq] at hd
        subst hd
        obtain ⟨-, -, -, -, -, h6, h7⟩ := from_pool_spec now ro w srv
        simp only [hres, Option.isSome_some, if_true] at h6 h7
        exact ⟨from_pool_some_reuseOk now ro w srv _ hres,
          from_pool_some_mem now ro w srv _ hres, h6, h7⟩
    · unfold get_backend_dcb at hd
      rw [if_neg henb] at hd
      simp at hd
  · intro e rest dest srv2 hfe
    constructor
    · simp only [reuse_loop, hfe, Bool.false_eq_true, if_false]
    · simp only [reuse_loop, hfe, Bool.false_eq_true, if_false]
      exact reuse_loop_destroyed_mem ro rest
        (dest ++ [{ e.dcb with handler := Handler.protocol }])
        { srv2 with n_persistent := srv2.n_persistent - 1 }
        { e.dcb with handler := Handler.protocol }
        (by simp)
  · intro d2 w2 srv2 hev
    simp [can_be_destroyed, hev]

/-! ## Timeout scanner (C5) -/

/-- C6 witness: with pooling disabled the acquisition falls through to a
fresh connect, leaving the state untouched. -/
theorem claim_C6_witness :
    get_backend_dcb 0 false (fun _ => false) emptyWorker serverC3
      = (GetResult.fresh, emptyWorker, serverC3) :=
  (claim_C6_get_backend_dcb 0 false (fun _ => false) emptyWorker serverC3).1 (by decide)

/-- Embeds `DCB::Role`. -/
inductive DcbRole
  | client
  | backend
  | internal
deriving DecidableEq, Repr

/-- Embeds `DCB::State`. -/
inductive DcbState
  | allocated
  | polling
  | nopolling
  | disconnected
deriving DecidableEq, Repr

/-- A DCB as the timeout scanner sees it: role, state, the last-read and
last-write stamps (in 100 ms ticks of `mxs_clock`), the write-queue
length, the owning service's `conn_idle_timeout` and `net_write_timeout`
(seconds, 0 = disabled), the session close reason, and a count of
synthesized hangup events (`trigger_hangup_event`). -/
structure TDcb where
  role : DcbRole
  state : DcbState
  last_read : Int
  last_write : Int
  writeq_len : Nat
  conn_idle_timeout : Int
  net_write_timeout : Int
  close_reason_timeout : Bool
  hangup_events : Nat
deriving DecidableEq, Repr

/-- The loop body of `RoutingWorker::process_timeouts`
(routingworker.cc:483-521): a DCB is examined only when its role is CLIENT
and its state is POLLING; with a nonzero `conn_idle_timeout` and idle time
above `10 * timeout` the session close reason is set to TIMEOUT and a
hangup event is synthesized; with a nonzero `net_write_timeout`, a
non-empty write queue and write idle above `10 * timeout`, likewise. -/
def scan_dcb (now : Int) (d : TDcb) : TDcb :=
  if d.role = DcbRole.client ∧ d.state = DcbState.polling then
    let d1 :=
      if d.conn_idle_timeout ≠ 0 ∧ now - d.last_read > d.conn_idle_timeout * 10 then
        { d with close_reason_timeout := true, hangup_events := d.hangup_events + 1 }
      else d
    if d.net_write_timeout ≠ 0 ∧ d.writeq_len > 0
        ∧ now - d.last_write > d.net_write_timeout * 10 then
      { d1 with close_reason_timeout := true, hangup_events := d1.hangup_events + 1 }
    else d1
  else d

/-- Embeds `RoutingWorker::process_timeouts` (routingworker.cc:475-524): nothing
happens before the deadline; once `mxs_clock() >= m_next_timeout_check`
the deadline is reset to `mxs_clock() + 10` and the DCB set is scanned. -/
def process_timeouts (now next_check : Int) (dcbs : List TDcb) : Int × List TDcb :=
  if now ≥ next_check then (now + 10, dcbs.map (scan_dcb now)) else (next_check, dcbs)

/-- The idle-timeout condition of the spec: `conn_idle_timeout > 0` and
`now - last_read > 10 * conn_idle_timeout`. -/
def idleTimedOut (now : Int) (d : TDcb) : Prop :=
  d.conn_idle_timeout ≠ 0 ∧ now - d.last_read > d.conn_idle_timeout * 10

/-- The write-timeout condition of the spec: `net_write_timeout > 0`, a
non-empty write queue and `now - last_write > 10 * net_write_timeout`. -/
def writeTimedOut (now : Int) (d : TDcb) : Prop :=
  d.net_write_timeout ≠ 0 ∧ d.writeq_len > 0 ∧ now - d.last_write > d.net_write_timeout * 10

/-- C5 (amended): when the scanner runs (`now ≥ next_check`) the next-check
deadline becomes `now + 10` — ten ticks past the current clock, which is
exactly ten past the old deadline only when the scan runs on time — and
every DCB is put through the scan body; before the deadline nothing
changes; the scan body synthesizes a hangup and marks the session's close
reason TIMEOUT exactly for the CLIENT/POLLING DCBs with an expired idle or
write timeout, a timeout of 0 disabling the corresponding check. -/
theorem claim_C5_process_timeouts (now next_check : Int) (dcbs : List TDcb) :
    (now ≥ next_check →
        (process_timeouts now next_check dcbs).1 = now + 10
        ∧ (process_timeouts now next_check dcbs).2 = dcbs.map (scan_dcb now))
    ∧ (¬now ≥ next_check →
        process_timeouts now next_check dcbs = (next_check, dcbs))
    ∧ (∀ d : TDcb,
        ((scan_dcb now d).hangup_events ≠ d.hangup_events
          ↔ d.role = DcbRole.client ∧ d.state = DcbState.polling
            ∧ (idleTimedOut now d ∨ writeTimedOut now d))
        ∧ ((scan_dcb now d).close_reason_timeout = true
            ↔ (d.close_reason_timeout = true
               ∨ (d.role = DcbRole.client ∧ d.state = DcbState.polling
                  ∧ (idleTimedOut now d ∨ writeTimedOut now d))))
        ∧ (d.conn_idle_timeout = 0 → d.net_write_timeout = 0 → scan_dcb now d = d)
        ∧ (¬(d.role = DcbRole.client ∧ d.state = DcbState.polling) →
            scan_dcb now d = d)) := by
  refine ⟨?_, ?_, ?_⟩
  · intro h
    rw [process_timeouts, if_pos h]
    exact ⟨rfl, rfl⟩
  · intro h
    rw [process_timeouts, if_neg h]
  · intro d
    unfold scan_dcb idleTimedOut writeTimedOut
    by_cases hrs : d.role = DcbRole.client ∧ d.state = DcbState.polling
    · rw [if_pos hrs]
      by_cases hidle : d.conn_idle_timeout ≠ 0 ∧ now - d.last_read > d.conn_idle_timeout * 10
      · rw [if_pos hidle]
        by_cases hwr : d.net_write_timeout ≠ 0 ∧ d.writeq_len > 0
            ∧ now - d.last_write > d.net_write_timeout * 10
        · rw [if_pos hwr]
          refine ⟨?_, ?_, ?_, ?_⟩
          · simp only []
            constructor
            · intro _
              exact ⟨hrs.1, hrs.2, Or.inl hidle⟩
            · intro _
              omega
          · simp only []
            simp [hrs, hidle]
          · intro h0
            exact absurd h0 (by simpa using hidle.1)
          · intro h
            exact absurd hrs h
        · rw [if_neg hwr]
          refine ⟨?_, ?_, ?_, ?_⟩
          · simp only []
            constructor
            · intro _
              exact ⟨hrs.1, hrs.2, Or.inl hidle⟩
            · intro _
              omega
          · simp only []
            simp [hrs, hidle]
          · intro h0
            exact absurd h0 (by simpa using hidle.1)
          · intro h
            exact absurd hrs h
      · rw [if_neg hidle]
        by_cases hwr : d.net_write_timeout ≠ 0 ∧ d.writeq_len > 0
            ∧ now - d.last_write > d.net_write_timeout * 10
        · rw [if_pos hwr]
          refine ⟨?_, ?_, ?_, ?_⟩
          · simp only []
            constructor
            · intro _
              exact ⟨hrs.1, hrs.2, Or.inr hwr⟩
            · intro _
              omega
          · simp only []
            simp [hrs, hwr]
          · intro h0 h0w
            exact absurd h0w (by simpa using hwr.1)
          · intro h
            exact absurd hrs h
        · rw [if_neg hwr]
          refine ⟨?_, ?_, ?_, ?_⟩
          · constructor
            · intro h
              exact absurd rfl h
            · rintro ⟨-, -, hcase | hcase⟩
              · exact absurd hcase hidle
              · exact absurd hcase hwr
          · constructor
            · intro h
              exact Or.inl h
            · rintro (h | ⟨-, -, hcase | hcase⟩)
              · exact h
              · exact absurd hcase hidle
              · exact absurd hcase hwr
          · intro _ _
            rfl
          · intro _
            rfl
    · rw [if_neg hrs]
      refine ⟨?_, ?_, ?_, ?_⟩
      · constructor
        · intro h
          exact absurd rfl h
        · rintro ⟨h1, h2, -⟩
          exact absurd ⟨h1, h2⟩ hrs
      · constructor
        · exact fun h => Or.inl h
        · rintro (h | ⟨h1, h2, -⟩)
          · exact h
          · exact absurd ⟨h1, h2⟩ hrs
      · intro _ _
        rfl
      · intro _
        rfl

/-- C5 counterexample: the scan at clock 105 with deadline 100 resets the
deadline to 115 = now + 10, not 110 = deadline + 10, so the deadline does
not advance by exactly ten ticks when the scan runs late. -/
theorem claim_C5_counterexample :
    (105 : Int) ≥ 100
    ∧ (process_timeouts 105 100 []).1 = 115
    ∧ (process_timeouts 105 100 []).1 ≠ 100 + 10 := by
  refine ⟨by decide, ?_, ?_⟩ <;> simp [process_timeouts]

/-- C5 witness: the amended theorem applied when the scan runs exactly at
the deadline. -/
theorem claim_C5_witness :
    (100 : Int) ≥ 100 ∧ (process_timeouts 100 100 []).1 = 100 + 10 :=
  ⟨by decide, by
    have := ((claim_C5_process_timeouts 100 100 []).1 (by decide)).1
    simpa using this⟩

/-! ## Zombie queue drain (C7) -/

/-- Embeds `RoutingWorker::delete_zombies` (routingworker.cc:526-538).  The zombie
queue is kept in reversed order (the head of the list is the back of the
`std::vector`, so `pop_back` is a head-pop and `push_back` is a cons).
Destroying a DCB (`DCB::Manager::call_destroy`) may itself push further
DCBs onto the queue; `eff d` gives the DCBs enqueued by destroying `d`, in
push order.  The C++ `while (!m_zombies.empty())` loop is modelled with
explicit fuel; `none` means the fuel ran out before the queue emptied.
Returns the destroyed DCBs in destruction order. -/
def delete_zombies (eff : Nat → List Nat) : Nat → List Nat → Option (List Nat)
  | _, [] => some []
  | 0, _ :: _ => none
  | fuel + 1, d :: rest =>
    match delete_zombies eff fuel ((eff d).reverse ++ rest) with
    | some destroyed => some (d :: destroyed)
    | none => none

/-- The zombie-queue effect of one `epoll_tick`
(routingworker.cc:866-876): the tick drains the queue; when the drain
finishes, the queue is empty. -/
def epoll_tick_zombies (eff : Nat → List Nat) (fuel : Nat) (zs : List Nat) :
    Option (List Nat) :=
  match delete_zombies eff fuel zs with
  | some _ => some []
  | none => none

/-- A run of loop turns: each turn first collects the DCBs enqueued while
events and mailbox tasks ran (`ev`, pushed onto the queue), then runs the
tick.  Returns the queue at the end of the last turn. -/
def run_turns (eff : Nat → List Nat) (fuel : Nat) :
    List (List Nat) → List Nat → Option (List Nat)
  | [], zs => some zs
  | ev :: turns, zs =>
    match epoll_tick_zombies eff fuel (ev.reverse ++ zs) with
    | some zs2 => run_turns eff fuel turns zs2
    | none => none

theorem delete_zombies_drains (eff : Nat → List Nat) :
    ∀ (fuel : Nat) (zs l : List Nat), delete_zombies eff fuel zs = some l →
      (∀ z ∈ zs, z ∈ l) ∧ (∀ d ∈ l, ∀ c ∈ eff d, c ∈ l) := by
  intro fuel
  induction fuel with
  | zero =>
    intro zs l h
    cases zs with
    | nil =>
      simp only [delete_zombies, Option.some.injEq] at h
      subst h
      exact ⟨by simp, by simp⟩
    | cons d rest => simp [delete_zombies] at h
  | succ n ih =>
    intro zs l h
    cases zs with
    | nil =>
      simp only [delete_zombies, Option.some.injEq] at h
      subst h
      exact ⟨by simp, by simp⟩
    | cons d rest =>
      simp only [delete_zombies] at h
      cases hrec : delete_zombies eff n ((eff d).reverse ++ rest) with
      | none => rw [hrec] at h; cases h
      | some destroyed =>
        rw [hrec] at h
        simp only [Option.some.injEq] at h
        subst h
        obtain ⟨ha, hb⟩ := ih _ _ hrec
        have hrest : ∀ z ∈ rest, z ∈ destroyed := by
          intro z hz
          exact ha z (by simp [hz])
        have heffd : ∀ c ∈ eff d, c ∈ destroyed := by
          intro c hc
          exact ha c (by simp [hc])
        refine ⟨?_, ?_⟩
        · intro z hz
          rcases List.mem_cons.mp hz with rfl | hz
          · exact List.mem_cons_self _ _
          · exact List.mem_cons_of_mem _ (hrest z hz)
        · intro x hx c hc
          rcases List.mem_cons.mp hx with rfl | hx
          · exact List.mem_cons_of_mem _ (heffd c hc)
          · exact List.mem_cons_of_mem _ (hb x hx c hc)

/-- C7: a completed drain destroys every DCB that was on the queue and is
closed under the enqueue effect of destruction — a DCB enqueued while
destroying another DCB during the same drain is itself destroyed before
the drain returns; consequently, whenever a run of loop turns completes,
the zombie queue is empty at the end of every turn, hence at the top of
every following turn. -/
theorem claim_C7_delete_zombies (eff : Nat → List Nat) (fuel : Nat) :
    (∀ (zs l : List Nat), delete_zombies eff fuel zs = some l →
        (∀ z ∈ zs, z ∈ l) ∧ (∀ d ∈ l, ∀ c ∈ eff d, c ∈ l))
    ∧ (∀ (zs zs2 : List Nat), epoll_tick_zombies eff fuel zs = some zs2 → zs2 = [])
    ∧ (∀ (turns : List (List Nat)) (zs zf : List Nat), turns ≠ [] →
        run_turns eff fuel turns zs = some zf → zf = []) := by
  refine ⟨delete_zombies_drains eff fuel, ?_, ?_⟩
  · intro zs zs2 h
    unfold epoll_tick_zombies at h
    cases hrec : delete_zombies eff fuel zs with
    | none => rw [hrec] at h; cases h
    | some l =>
      rw [hrec] at h
      simp only [Option.some.injEq] at h
      exact h.symm
  · intro turns
    induction turns with
    | nil => intro zs zf h; exact absurd rfl h
    | cons ev rest ih =>
      intro zs zf _ h
      simp only [run_turns] at h
      cases hrec : epoll_tick_zombies eff fuel (ev.reverse ++ zs) with
      | none => rw [hrec] at h; cases h
      | some zs2 =>
        rw [hrec] at h
        cases rest with
        | nil =>
          simp only [run_turns, Option.some.injEq] at h
          subst h
          unfold epoll_tick_zombies at hrec
          cases hrec2 : delete_zombies eff fuel (ev.reverse ++ zs) with
          | none => rw [hrec2] at hrec; cases hrec
          | some l =>
            rw [hrec2] at hrec
            simp only [Option.some.injEq] at hrec
            exact hrec.symm
        | cons ev2 rest2 => exact ih zs2 zf (by simp) h

/-- C7 witness: a drain of the one-element queue with an effect-free
destructor. -/
theorem claim_C7_witness :
    delete_zombies (fun _ => []) 1 [5] = some [5]
    ∧ (∀ z ∈ ([5] : List Nat), z ∈ ([5] : List Nat)) :=
  ⟨rfl, ((claim_C7_delete_zombies (fun _ => []) 1).1 [5] [5] rfl).1⟩

/-! ## Per-thread module initialization (C2) -/

/-- A loaded module as `modules_thread_init` sees it: an optional
`thread_init` entry (with the return code it would produce) and an
optional `thread_finish` entry.  The `name` identifies the module in call
traces. -/
structure MxsModule where
  name : Nat
  has_thread_init : Bool
  init_rc : Int
  has_thread_finish : Bool
deriving DecidableEq, Repr, Inhabited

/-- The first phase of `modules_thread_init` (routingworker.cc:104-118):
iterate the modules, calling `thread_init` where present, and stop at the
first nonzero return code.  Returns the index of the failed module. -/
def find_failed : List MxsModule → Option Nat
  | [] => none
  | m :: rest =>
    if m.has_thread_init && decide (m.init_rc ≠ 0) then some 0
    else (find_failed rest).map (fun i => i + 1)

/-- The cleanup phase of `modules_thread_init` (routingworker.cc:120-135):
re-iterate from the beginning and call `thread_finish` on every module
strictly before the failed one that has the entry, in iteration order.
Returns the names called. -/
def finish_trace_upto : List MxsModule → Nat → List Nat
  | _, 0 => []
  | [], _ + 1 => []
  | m :: rest, k + 1 =>
    (if m.has_thread_finish then [m.name] else []) ++ finish_trace_upto rest k

/-- Embeds `modules_thread_init` (routingworker.cc:100-142): true when every
`thread_init` succeeded; on failure, the finish trace of the cleanup
pass. -/
def modules_thread_init (mods : List MxsModule) : Bool × List Nat :=
  match find_failed mods with
  | none => (true, [])
  | some k => (false, finish_trace_upto mods k)

def WORKER_ABSENT_ID : Int := -1

/-- Embeds `RoutingWorker::pre_run` (routingworker.cc:788-801): set the
thread-local current-worker id, run `modules_thread_init` and
`qc_thread_init` (short-circuited), and on failure clear the id and
return false, which makes the worker thread exit without running the
loop.  Returns (thread-local id after, return value, finish trace). -/
def pre_run (m_id : Int) (mods : List MxsModule) (qc_ok : Bool) :
    Int × Bool × List Nat :=
  let r := modules_thread_init mods
  let rv := r.1 && qc_ok
  (if rv then m_id else WORKER_ABSENT_ID, rv, r.2)

theorem finish_trace_upto_eq (mods : List MxsModule) :
    ∀ k : Nat, finish_trace_upto mods k
      = ((mods.take k).filter (fun m => m.has_thread_finish)).map (fun m => m.name) := by
  induction mods with
  | nil => intro k; cases k <;> simp [finish_trace_upto]
  | cons m rest ih =>
    intro k
    cases k with
    | zero => simp [finish_trace_upto]
    | succ k =>
      simp only [finish_trace_upto, List.take_succ_cons, List.filter_cons]
      split <;> simp [ih k]

theorem find_failed_spec (mods : List MxsModule) (k : Nat)
    (h : find_failed mods = some k) :
    k < mods.length
    ∧ (mods.getD k default).has_thread_init = true
    ∧ (mods.getD k default).init_rc ≠ 0
    ∧ ∀ j, j < k →
        ¬((mods.getD j default).has_thread_init = true
          ∧ (mods.getD j default).init_rc ≠ 0) := by
  induction mods generalizing k with
  | nil => simp [find_failed] at h
  | cons m rest ih =>
    simp only [find_failed] at h
    split at h
    · rename_i hm
      simp only [Option.some.injEq] at h
      subst h
      simp only [Bool.and_eq_true, decide_eq_true_eq] at hm
      exact ⟨by simp, hm.1, hm.2, by omega⟩
    · rename_i hm
      cases hk : find_failed rest with
      | none => rw [hk] at h; cases h
      | some k2 =>
        rw [hk] at h
        simp only [Option.map_some', Option.some.injEq] at h
        subst h
        obtain ⟨ih1, ih2, ih3, ih4⟩ := ih k2 hk
        refine ⟨by simpa using Nat.succ_lt_succ ih1, by simpa using ih2,
          by simpa using ih3, ?_⟩
        intro j hj
        cases j with
        | zero =>
          simp only [List.getD_cons_zero]
          intro hc
          exact hm (by simp [hc.1, hc.2])
        | succ j2 =>
          simp only [List.getD_cons_succ]
          exact ih4 j2 (by omega)

/-- C2 (amended): when per-thread plugin initialization fails at index
`k`, the cleanup pass calls `on_thread_finish` in the forward iteration
order — not reverse — on exactly the modules strictly before the failed
one that have a finish entry; neither the failed module nor any later one
is called; `pre_run` returns false, so the thread exits without running
the loop, and the thread-local current-worker id is cleared. -/
theorem claim_C2_thread_init_cleanup (mods : List MxsModule) (k : Nat) (m_id : Int)
    (qc_ok : Bool) (hk : find_failed mods = some k)
    (hnodup : (mods.map (fun m => m.name)).Nodup) :
    (modules_thread_init mods).1 = false
    ∧ (modules_thread_init mods).2
        = ((mods.take k).filter (fun m => m.has_thread_finish)).map (fun m => m.name)
    ∧ (∀ j, k ≤ j → j < mods.length →
        (mods.getD j default).name ∉ (modules_thread_init mods).2)
    ∧ (pre_run m_id mods qc_ok).2.1 = false
    ∧ (pre_run m_id mods qc_ok).1 = WORKER_ABSENT_ID := by
  have htrace : (modules_thread_init mods).2
      = ((mods.take k).filter (fun m => m.has_thread_finish)).map (fun m => m.name) := by
    simp [modules_thread_init, hk, finish_trace_upto_eq]
  refine ⟨by simp [modules_thread_init, hk], htrace, ?_, ?_, ?_⟩
  · intro j hkj hjlen hmem
    rw [htrace] at hmem
    have hsub : ((mods.take k).filter (fun m => m.has_thread_finish)).map (fun m => m.name)
        ⊆ (mods.take k).map (fun m => m.name) :=
      List.map_subset _ (List.filter_subset' _)
    have hmem2 := hsub hmem
    rw [List.map_take] at hmem2
    obtain ⟨i, hi, hEq⟩ := List.mem_iff_getElem.mp hmem2
    have hik : i < k := by
      have := hi
      simp only [List.length_take] at this
      omega
    have hilen : i < (mods.map (fun m => m.name)).length := by
      have := hi
      simp only [List.length_take] at this
      omega
    have hjlen2 : j < (mods.map (fun m => m.name)).length := by simpa using hjlen
    have htk : (List.take k (mods.map (fun m => m.name)))[i]
        = (mods.map (fun m => m.name))[i] :=
      List.getElem_take (mods.map (fun m => m.name))
    have hEq2 : (mods.map (fun m => m.name))[i] = (mods.map (fun m => m.name))[j] := by
      rw [← htk, hEq, List.getD_eq_getElem _ _ hjlen]
      simp
    have := (List.Nodup.getElem_inj_iff hnodup).mp hEq2
    omega
  · simp [pre_run, modules_thread_init, hk]
  · simp [pre_run, modules_thread_init, hk, WORKER_ABSENT_ID]

def modsC2 : List MxsModule :=
  [{ name := 1, has_thread_init := true, init_rc := 0, has_thread_finish := true },
   { name := 2, has_thread_init := true, init_rc := 0, has_thread_finish := true },
   { name := 3, has_thread_init := true, init_rc := 1, has_thread_finish := true }]

/-- C2 counterexample: with two successfully initialized modules (names 1
and 2) before the failing third, the cleanup pass calls `thread_finish` as
[1, 2] — the iteration order — not in the reverse order [2, 1] that the
claim states. -/
theorem claim_C2_counterexample :
    (modules_thread_init modsC2).1 = false
    ∧ (modules_thread_init modsC2).2 = [1, 2]
    ∧ (modules_thread_init modsC2).2 ≠ [2, 1] := by
  decide

/-- C2 witness: the amended theorem applied to the three-module list. -/
theorem claim_C2_witness :
    find_failed modsC2 = some 2
    ∧ (modsC2.map (fun m => m.name)).Nodup
    ∧ (pre_run 0 modsC2 true).1 = WORKER_ABSENT_ID :=
  ⟨by decide, by decide,
   (claim_C2_thread_init_cleanup modsC2 2 0 true (by decide) (by decide)).2.2.2.2⟩

/-! ## Pool-wide dispatch (C8) -/

/-- The unit state the dispatch primitives read: the configured thread
count (`this_unit.nWorkers`), the monotonic worker-id counter
(`this_unit.next_worker_id`), and the per-worker success of the
submission primitives (`Worker::execute` on a task and on a closure,
`post_disposable`, `post_message`). -/
structure DispatchUnit where
  nWorkers : Nat
  next_worker_id : Nat
  execute_task_ok : Nat → Bool
  execute_func_ok : Nat → Bool
  post_disposable_ok : Nat → Bool
  post_message_ok : Nat → Bool

/-- Embeds `RoutingWorker::broadcast(Task*, Semaphore*)` (routingworker.cc:932-950):
loop `i` from 0 to `this_unit.next_worker_id`, count successful
`execute` submissions. -/
def broadcast_task (u : DispatchUnit) : Nat :=
  (List.range u.next_worker_id).foldl
    (fun n i => if u.execute_task_ok i then n + 1 else n) 0

/-- Embeds `RoutingWorker::broadcast(std::unique_ptr<DisposableTask>)`
(routingworker.cc:953-975). -/
def broadcast_disposable (u : DispatchUnit) : Nat :=
  (List.range u.next_worker_id).foldl
    (fun n i => if u.post_disposable_ok i then n + 1 else n) 0

/-- Embeds `RoutingWorker::broadcast(std::function, Semaphore*, mode)`
(routingworker.cc:978-997). -/
def broadcast_func (u : DispatchUnit) : Nat :=
  (List.range u.next_worker_id).foldl
    (fun n i => if u.execute_func_ok i then n + 1 else n) 0

/-- Embeds `RoutingWorker::execute_serially(Task&)` (routingworker.cc:1000-1019):
same iteration bound, waiting on the semaphore after each successful
submission before the next. -/
def execute_serially (u : DispatchUnit) : Nat :=
  (List.range u.next_worker_id).foldl
    (fun n i => if u.execute_task_ok i then n + 1 else n) 0

/-- Embeds `RoutingWorker::broadcast_message` (routingworker.cc:1058-1077). -/
def broadcast_message (u : DispatchUnit) : Nat :=
  (List.range u.next_worker_id).foldl
    (fun n i => if u.post_message_ok i then n + 1 else n) 0

/-- Embeds `RoutingWorker::shutdown_all` (routingworker.cc:1080-1093):
`shutdown()` is signalled to every worker with index below
`next_worker_id`; the function returns no count.  Modelled as the list of
signalled indices. -/
def shutdown_all (u : DispatchUnit) : List Nat :=
  List.range u.next_worker_id

theorem foldl_count_eq (p : Nat → Bool) :
    ∀ (l : List Nat) (a : Nat),
      l.foldl (fun n i => if p i then n + 1 else n) a = a + (l.filter p).length
  | [], a => by simp
  | x :: rest, a => by
    simp only [List.foldl_cons, List.filter_cons]
    split
    · rw [foldl_count_eq p rest (a + 1)]
      simp only [List.length_cons]
      omega
    · rw [foldl_count_eq p rest a]

/-- C8: every pool-wide dispatch primitive iterates worker indices 0 up to
the monotonic `next_worker_id` counter — never the configured thread count
`nWorkers`, on which none of them depends — and each submitting primitive
returns the number of workers whose individual submission succeeded;
`shutdown_all` signals exactly those same indices. -/
theorem claim_C8_dispatch_bound (u : DispatchUnit) :
    broadcast_task u = ((List.range u.next_worker_id).filter u.execute_task_ok).length
    ∧ broadcast_disposable u
        = ((List.range u.next_worker_id).filter u.post_disposable_ok).length
    ∧ broadcast_func u = ((List.range u.next_worker_id).filter u.execute_func_ok).length
    ∧ execute_serially u = ((List.range u.next_worker_id).filter u.execute_task_ok).length
    ∧ broadcast_message u = ((List.range u.next_worker_id).filter u.post_message_ok).length
    ∧ shutdown_all u = List.range u.next_worker_id
    ∧ (∀ m : Nat,
        broadcast_task { u with nWorkers := m } = broadcast_task u
        ∧ broadcast_disposable { u with nWorkers := m } = broadcast_disposable u
        ∧ broadcast_func { u with nWorkers := m } = broadcast_func u
        ∧ execute_serially { u with nWorkers := m } = execute_serially u
        ∧ broadcast_message { u with nWorkers := m } = broadcast_message u
        ∧ shutdown_all { u with nWorkers := m } = shutdown_all u) := by
  refine ⟨?_, ?_, ?_, ?_, ?_, rfl, fun m => ⟨rfl, rfl, rfl, rfl, rfl, rfl⟩⟩ <;>
    simpa using foldl_count_eq _ (List.range u.next_worker_id) 0

/-! ## Shared listener registration (C9) -/

/-- The `EPOLLET` flag: bit 31 of the epoll event mask. -/
def EPOLLET : Nat := 2 ^ 31

/-- The value of `~EPOLLET` on a 32-bit word: all bits but bit 31, i.e. `0x7FFFFFFF`. -/
def EPOLLET_MASK : Nat := 2 ^ 31 - 1

/-- The registration `add_shared_fd` performs on the shared listener epoll
instance: the descriptor, the event mask passed to `epoll_ctl`, and
whether the poll data's owner was set to the main worker. -/
structure EpollRegistration where
  fd : Nat
  events : Nat
  owner_is_main : Bool
deriving DecidableEq, Repr

/-- Embeds `RoutingWorker::add_shared_fd` (routingworker.cc:325-352): clear the
edge-triggered bit from the requested events (`events &= ~EPOLLET`),
assign ownership of the descriptor's poll data to the main worker
(`pData->owner = RoutingWorker::get(RoutingWorker::MAIN)`), and register
through `epoll_ctl(EPOLL_CTL_ADD)` with that mask and data. -/
def add_shared_fd (fd events : Nat) : EpollRegistration :=
  { fd := fd, events := events &&& EPOLLET_MASK, owner_is_main := true }

/-- C9: the mask registered by `add_shared_fd` always has the
edge-triggered bit clear — the shared descriptor is level-triggered for
every input mask — the poll data's owner is the main worker, and no bit
other than bit 31 is altered. -/
theorem claim_C9_add_shared_fd (fd events : Nat) (hev : events < 2 ^ 32) :
    (add_shared_fd fd events).events &&& EPOLLET = 0
    ∧ (add_shared_fd fd events).owner_is_main = true
    ∧ (∀ i : Nat, i ≠ 31 →
        (add_shared_fd fd events).events.testBit i = events.testBit i) := by
  refine ⟨?_, rfl, ?_⟩
  · apply Nat.eq_of_testBit_eq
    intro i
    simp only [Nat.testBit_land, Nat.zero_testBit, add_shared_fd, EPOLLET, EPOLLET_MASK]
    by_cases h31 : i = 31
    · subst h31
      have hm : (2 ^ 31 - 1 : Nat).testBit 31 = false := by
        apply Nat.testBit_lt_two_pow
        norm_num
      norm_num at hm
      simp [hm]
    · have hm : (2 ^ 31 : Nat).testBit i = false := by
        rw [Nat.testBit_two_pow]
        simpa using fun h => h31 h.symm
      norm_num at hm
      simp [hm]
  · intro i hi
    simp only [add_shared_fd, Nat.testBit_land, EPOLLET_MASK]
    rcases Nat.lt_or_ge i 31 with hlt | hge
    · have hm : (2 ^ 31 - 1 : Nat).testBit i = true := by
        rw [Nat.testBit_two_pow_sub_one]
        simpa using hlt
      norm_num at hm
      simp [hm]
    · have hgt : 31 < i := lt_of_le_of_ne hge (fun h => hi h.symm)
      have hm : (2 ^ 31 - 1 : Nat).testBit i = false := by
        apply Nat.testBit_lt_two_pow
        calc (2 ^ 31 - 1 : Nat) < 2 ^ 31 := by norm_num
        _ ≤ 2 ^ i := Nat.pow_le_pow_right (by norm_num) (by omega)
      have he : events.testBit i = false := by
        apply Nat.testBit_lt_two_pow
        calc events < 2 ^ 32 := hev
        _ ≤ 2 ^ i := Nat.pow_le_pow_right (by norm_num) (by omega)
      norm_num at hm
      simp [hm, he]

/-- C9 witness: the theorem applied to `EPOLLIN | EPOLLET`. -/
theorem claim_C9_witness :
    (2 ^ 31 + 1 : Nat) < 2 ^ 32
    ∧ (add_shared_fd 4 (2 ^ 31 + 1)).events &&& EPOLLET = 0 :=
  ⟨by norm_num, (claim_C9_add_shared_fd 4 (2 ^ 31 + 1) (by norm_num)).1⟩

/-! ## Thread-local current worker (C10) -/

/-- The `ppWorkers` array of `this_unit`, with `none` for NULL slots. -/
structure WorkerRegistry where
  ppWorkers : Int → Option Nat

/-- Embeds `RoutingWorker::get` (routingworker.cc:375-387), restricted to plain
worker ids; the `MAIN` sentinel redirect is immaterial here because
`get_current` only calls `get` with an id that is not the absent
sentinel. -/
def RW_get (u : WorkerRegistry) (worker_id : Int) : Option Nat :=
  u.ppWorkers worker_id

/-- Embeds `RoutingWorker::get_current_id` (routingworker.cc:403-406): returns the
thread-local `this_thread.current_worker_id` as is. -/
def get_current_id (tid : Int) : Int := tid

/-- Embeds `RoutingWorker::get_current` (routingworker.cc:389-401): NULL unless
the thread-local id is set, otherwise `get(worker_id)`. -/
def get_current (u : WorkerRegistry) (tid : Int) : Option Nat :=
  if tid ≠ WORKER_ABSENT_ID then RW_get u tid else none

/-- The thread-local id after `RoutingWorker::post_run`
(routingworker.cc:803-811): cleared to the absent sentinel. -/
def post_run_thread_id : Int := WORKER_ABSENT_ID

/-- C10: with the thread-local id unset, `get_current` returns NULL and
`get_current_id` returns the absent sentinel (-1); `get_current` returns a
worker exactly when the id is set (under the well-formedness the code
asserts — a set id names an existing worker); and the id is unset after
`post_run` and after a `pre_run` that failed. -/
theorem claim_C10_get_current (u : WorkerRegistry) (tid : Int)
    (hwf : tid ≠ WORKER_ABSENT_ID → (u.ppWorkers tid).isSome = true) :
    (tid = WORKER_ABSENT_ID →
        get_current u tid = none ∧ get_current_id tid = -1)
    ∧ ((get_current u tid).isSome = true ↔ tid ≠ WORKER_ABSENT_ID)
    ∧ get_current u post_run_thread_id = none
    ∧ (∀ (mods : List MxsModule) (qc : Bool) (m_id : Int),
        (pre_run m_id mods qc).2.1 = false →
        get_current u (pre_run m_id mods qc).1 = none) := by
  refine ⟨?_, ?_, ?_, ?_⟩
  · intro h
    constructor
    · simp [get_current, h]
    · simp [get_current_id, h, WORKER_ABSENT_ID]
  · constructor
    · intro h
      by_cases habs : tid = WORKER_ABSENT_ID
      · rw [get_current, if_neg (by simpa using habs)] at h
        simp at h
      · exact habs
    · intro h
      rw [get_current, if_pos h]
      exact hwf h
  · simp [get_current, post_run_thread_id]
  · intro mods qc m_id h
    simp only [pre_run] at h ⊢
    rw [h]
    simp [get_current]

/-- C10 witness: the theorem applied to a one-worker registry with the id
set, and with it unset. -/
theorem claim_C10_witness :
    ((get_current ⟨fun i => if i = 0 then some 0 else none⟩ 0).isSome = true
      ↔ (0 : Int) ≠ WORKER_ABSENT_ID)
    ∧ get_current ⟨fun i => if i = 0 then some 0 else none⟩ WORKER_ABSENT_ID = none :=
  ⟨(claim_C10_get_current ⟨fun i => if i = 0 then some 0 else none⟩ 0
      (fun _ => by simp)).2.1,
   ((claim_C10_get_current ⟨fun i => if i = 0 then some 0 else none⟩ WORKER_ABSENT_ID
      (fun h => absurd rfl h)).1 rfl).1⟩

end MaxScale
